import Mathlib

/-!
Shallow embedding of the `regextractor` line-oriented extraction engine.

Modelling conventions:
* A compiled regex is abstracted by its `captures` behaviour: applied to a
  line it either finds no match (or errors, which the source folds into the
  non-match case via the `Ok(Some(_))` patterns) — modelled as `none` — or
  yields a capture list, where entry `i` is capture group `i`
  (`none` inside the list = the group did not participate).
* The numeric type `T` (Rust: `num::Float + FromStr`) is abstracted by a
  `NumModel` bundle carrying the NaN sentinel, zero, one, addition and the
  external string parser.
* The byte stream is abstracted by the list of line-read results the
  buffered line reader would yield: `Except IoError String`.
* Rust panics (out-of-bounds indexing) are modelled by an outer `Option`:
  `none` is a panic, `some (Except.error e)` a returned error,
  `some (Except.ok v)` a normal result.
-/

/-- Abstract model of an io error carried by a failed line read. -/
structure IoError where
  code : Nat
deriving DecidableEq, Repr

/-- Abstract model of a compiled regex: `captures line` is `some groups`
when search finds a match (group 0 the whole match), `none` when there is
no match or regex evaluation fails (the source treats both alike). -/
structure Regex where
  captures : String → Option (List (Option String))

/-- Abstract model of the numeric scalar type `T` together with the
external `str → T` parser assumed by the spec. -/
structure NumModel (T : Type) where
  nan : T
  zero : T
  one : T
  add : T → T → T
  parse : String → Option T

/-- `NamedRegex`: a display name paired with a compiled pattern
(src/lib.rs). -/
structure NamedRegex where
  name : String
  regex : Regex

/-- The error taxonomy of the table layer
(src/datatable/datatable_error.rs). -/
inductive DataTableError where
  | InvalidColumnName
  | InvalidColumnCount
  | InvalidColumnIndex
  | InvalidCBaseDataIndex
  | InvalidCBaseDataName
  | InconsistentBuilderData
  | InconsistentContainerSize
  | DuplicateName
deriving DecidableEq, Repr

/-- The pipeline error taxonomy (src/error.rs). -/
inductive ExtractionError where
  | DataTable (e : DataTableError)
  | ReadError (e : IoError)
deriving DecidableEq, Repr

/-- `FilterIter::is_ignored`'s loop body / `is_included`'s loop body:
walk the regex list, return true on the first that finds a match
(src/filter_iter.rs, the `for rgx in …` loops). -/
def matchesAny (line : String) : List Regex → Bool
  | [] => false
  | r :: rs => if (r.captures line).isSome then true else matchesAny line rs

/-- `is_ignored` (src/filter_iter.rs:51): some exclude regex matches. -/
def is_ignored (line : String) (ignores : List Regex) : Bool :=
  matchesAny line ignores

/-- `is_included` (src/filter_iter.rs:60): loop returns true on a match,
otherwise the function returns `includes.is_empty()`. -/
def is_included (line : String) (includes : List Regex) : Bool :=
  if matchesAny line includes then true else includes.isEmpty

/-- The keep-predicate that the filter loop implements, written over a
single stream item. -/
def keepItem (includes excludes : List Regex) :
    Except IoError String → Bool
  | Except.ok line => is_included line includes && !(is_ignored line excludes)
  | Except.error _ => true

/-- The full output stream of `FilterIter::next` (src/filter_iter.rs:32):
repeatedly pull from the underlying line reader; an `Ok` line failing the
include check or hitting the exclude check is skipped (`continue`); a kept
line is yielded; a read error or end-of-stream is forwarded as-is. -/
def filterIterOutput (includes excludes : List Regex) :
    List (Except IoError String) → List (Except IoError String)
  | [] => []
  | Except.ok line :: rest =>
    if is_included line includes then
      if is_ignored line excludes then filterIterOutput includes excludes rest
      else Except.ok line :: filterIterOutput includes excludes rest
    else filterIterOutput includes excludes rest
  | Except.error e :: rest => Except.error e :: filterIterOutput includes excludes rest

/-- `get_number` (src/lib.rs:134): pick capture index 1 when `group`,
else 0; NaN when there is no match, the capture is absent, or parsing
fails. -/
def get_number {T : Type} (M : NumModel T) (line : String) (rgx : Regex)
    (group : Bool) : T :=
  let matchIndex := if group then 1 else 0
  match rgx.captures line with
  | some caps =>
    match caps.get? matchIndex with
    | some (some d) =>
      match M.parse d with
      | some n => n
      | none => M.nan
    | some none => M.nan
    | none => M.nan
  | none => M.nan

/-- `get_numbers` (src/lib.rs:153): one `(name, value)` pair per regex,
in order. -/
def get_numbers {T : Type} (M : NumModel T) (line : String)
    (rgxs : List NamedRegex) (group : Bool) : List (String × T) :=
  rgxs.map (fun rgx => (rgx.name, get_number M line rgx.regex group))

/-- `DataTable` (src/datatable/mod.rs:8). -/
structure DataTable (T : Type) where
  value_columns : Nat
  value_rows : Nat
  base_data_index : Option Nat
  value_names : List String
  value_data : List (List T)
  base_data : List T
deriving DecidableEq, Repr

/-- `DataTable::get_base_data` (src/datatable/mod.rs:18):
`&self.value_data[index]` when a base index is set (panic — `none` — when
out of bounds), else the stored `base_data`. -/
def DataTable.get_base_data {T : Type} (dt : DataTable T) : Option (List T) :=
  match dt.base_data_index with
  | some index => dt.value_data.get? index
  | none => some dt.base_data

/-- `DataTable::new` (src/datatable/mod.rs:26): default names are
`"0","1",…`; all columns start empty. -/
def DataTable.new (T : Type) (columns : Nat) (names : Option (List String))
    (base_data_index : Option Nat) : DataTable T :=
  { value_columns := columns
    value_rows := 0
    base_data_index := base_data_index
    value_names := names.getD ((List.range columns).map toString)
    value_data := List.replicate columns []
    base_data := [] }

/-- `Iterator::position` on a name list, as used by
`new_with_base_data_name` and the name-based accessors. -/
def listPosition (name : String) : List String → Option Nat
  | [] => none
  | x :: xs => if x = name then some 0 else (listPosition name xs).map (· + 1)

/-- `DataTable::new_with_base_data_index` (src/datatable/mod.rs:38). -/
def DataTable.new_with_base_data_index (T : Type) (columns : Nat)
    (names : Option (List String)) (base_data_index : Nat) :
    Except DataTableError (DataTable T) :=
  if base_data_index < columns then
    Except.ok (DataTable.new T columns names (some base_data_index))
  else
    Except.error DataTableError.InvalidCBaseDataIndex

/-- `DataTable::new_with_base_data_name` (src/datatable/mod.rs:50). -/
def DataTable.new_with_base_data_name (T : Type) (columns : Nat)
    (names : List String) (base_data_name : String) :
    Except DataTableError (DataTable T) :=
  match listPosition base_data_name names with
  | some index => DataTable.new_with_base_data_index T columns (some names) index
  | none => Except.error DataTableError.InvalidCBaseDataName

/-- `DataTable::add_row` (src/datatable/mod.rs:62): length check, push one
value to each column (`zip` truncates on mismatch exactly as the Rust
iterator zip does), then extend the base axis: `data[base_index]` when a
base index is set (panic when out of range), else previous + one, or zero
when `base_data` is empty. -/
def DataTable.add_row {T : Type} (M : NumModel T) (dt : DataTable T)
    (data : List T) : Option (Except DataTableError (DataTable T)) :=
  if data.length ≠ dt.value_columns then
    some (Except.error DataTableError.InvalidColumnCount)
  else
    let value_data := (dt.value_data.zip data).map (fun p => p.1 ++ [p.2])
    match dt.base_data_index with
    | some base_index =>
      match data.get? base_index with
      | none => none
      | some x =>
        some (Except.ok { dt with
          value_data := value_data
          base_data := dt.base_data ++ [x]
          value_rows := dt.value_rows + 1 })
    | none =>
      let nb : T :=
        match dt.base_data.getLast? with
        | some prev => M.add prev M.one
        | none => M.zero
      some (Except.ok { dt with
        value_data := value_data
        base_data := dt.base_data ++ [nb]
        value_rows := dt.value_rows + 1 })

/-- `DataTable::check_column_index` (src/datatable/mod.rs:141): the bound
is the base column's length (propagating `get_base_data`'s panic). -/
def DataTable.check_column_index {T : Type} (dt : DataTable T)
    (index : Nat) : Option (Except DataTableError Unit) :=
  match dt.get_base_data with
  | none => none
  | some bd =>
    if bd.length ≤ index then some (Except.error DataTableError.InvalidColumnIndex)
    else some (Except.ok ())

/-- `DataTable::get_name` (src/datatable/mod.rs:83): bound check, then
`&self.value_names[index]` — a panic (`none`) when `index` passes the
(row-count) bound but exceeds the name list. -/
def DataTable.get_name {T : Type} (dt : DataTable T) (index : Nat) :
    Option (Except DataTableError String) :=
  match dt.check_column_index index with
  | none => none
  | some (Except.error e) => some (Except.error e)
  | some (Except.ok _) =>
    match dt.value_names.get? index with
    | none => none
    | some n => some (Except.ok n)

/-- `DataTableBuilder` (src/datatable/builder.rs:6). The `HashMap` is
modelled by an association list; no claim depends on the map's iteration
order, only on it being fixed for a given map. -/
structure DataTableBuilder (T : Type) where
  data : List (String × List T)
deriving DecidableEq, Repr

/-- `contains_key` on the association-list model of the builder map. -/
def builderHasKey {T : Type} (b : DataTableBuilder T) (name : String) : Bool :=
  b.data.any (fun p => p.1 = name)

/-- The `for name in names` loop of `DataTableBuilder::new`
(src/datatable/builder.rs:15): fail on a duplicate key, else insert an
empty buffer. -/
def builderNewLoop (T : Type) (acc : DataTableBuilder T) :
    List String → Except DataTableError (DataTableBuilder T)
  | [] => Except.ok acc
  | name :: names =>
    if builderHasKey acc name then Except.error DataTableError.DuplicateName
    else builderNewLoop T ⟨acc.data ++ [(name, [])]⟩ names

/-- `DataTableBuilder::new` (src/datatable/builder.rs:11). -/
def DataTableBuilder.new (T : Type) (names : List String) :
    Except DataTableError (DataTableBuilder T) :=
  builderNewLoop T ⟨[]⟩ names

/-- `DataTableBuilder::add_value` (src/datatable/builder.rs:24): push onto
the named buffer, `InvalidColumnName` when the key is unknown. -/
def DataTableBuilder.add_value {T : Type} (b : DataTableBuilder T)
    (name : String) (value : T) : Except DataTableError (DataTableBuilder T) :=
  if builderHasKey b name then
    Except.ok ⟨b.data.map (fun p => if p.1 = name then (p.1, p.2 ++ [value]) else p)⟩
  else
    Except.error DataTableError.InvalidColumnName

/-- `Iterator::max` over a length list, as `get_len` uses it. -/
def optMax : List Nat → Option Nat
  | [] => none
  | a :: as => some (as.foldl Nat.max a)

/-- `Iterator::min` over a length list, as `get_len` uses it. -/
def optMin : List Nat → Option Nat
  | [] => none
  | a :: as => some (as.foldl Nat.min a)

/-- `DataTableBuilder::get_len` (src/datatable/builder.rs:52):
`InconsistentBuilderData` when max ≠ min over the buffer lengths, or when
there is no first length at all. -/
def DataTableBuilder.get_len {T : Type} (b : DataTableBuilder T) :
    Except DataTableError Nat :=
  let lens := b.data.map (fun p => p.2.length)
  if optMax lens ≠ optMin lens then Except.error DataTableError.InconsistentBuilderData
  else
    match lens.head? with
    | some l => Except.ok l
    | none => Except.error DataTableError.InconsistentBuilderData

/-- The `collect::<Option<Vec<_>>>` of `get_row`: the `index`-th entry of
every buffer, short-circuiting to `none` on the first missing one. -/
def collectRow {T : Type} (index : Nat) : List (String × List T) → Option (List T)
  | [] => some []
  | p :: ps =>
    match p.2.get? index with
    | none => none
    | some x => (collectRow index ps).map (fun r => x :: r)

/-- `DataTableBuilder::get_row` (src/datatable/builder.rs:60): collect the
`index`-th entry of every buffer; `InvalidColumnIndex` when any is
missing. -/
def DataTableBuilder.get_row {T : Type} (b : DataTableBuilder T)
    (index : Nat) : Except DataTableError (List T) :=
  match collectRow index b.data with
  | some row => Except.ok row
  | none => Except.error DataTableError.InvalidColumnIndex

/-- The `for i in 0..len` loop of `DataTableBuilder::build`
(src/datatable/builder.rs:46): `get_row(i)?` propagates its error;
`add_row(..).ok()` discards the row error (the table is then unchanged)
but a panic propagates. -/
def buildLoop {T : Type} (M : NumModel T) (b : DataTableBuilder T) :
    List Nat → DataTable T → Option (Except DataTableError (DataTable T))
  | [], dt => some (Except.ok dt)
  | i :: is, dt =>
    match b.get_row i with
    | Except.error e => some (Except.error e)
    | Except.ok row =>
      match DataTable.add_row M dt row with
      | none => none
      | some (Except.error _) => buildLoop M b is dt
      | some (Except.ok dt2) => buildLoop M b is dt2

/-- `DataTableBuilder::build` (src/datatable/builder.rs:33). -/
def DataTableBuilder.build {T : Type} (M : NumModel T) (b : DataTableBuilder T)
    (base_data_name : Option String) : Option (Except DataTableError (DataTable T)) :=
  match b.get_len with
  | Except.error e => some (Except.error e)
  | Except.ok len =>
    let names := b.data.map (fun p => p.1)
    let dt0 : Except DataTableError (DataTable T) :=
      match base_data_name with
      | some name => DataTable.new_with_base_data_name T b.data.length names name
      | none => Except.ok (DataTable.new T b.data.length (some names) none)
    match dt0 with
    | Except.error e => some (Except.error e)
    | Except.ok dt => buildLoop M b (List.range len) dt

/-- The pairs-insertion loop of `extract_data`'s closure
(src/lib.rs:78): `builder.add_value(&name, value)?` over the extracted
pairs, short-circuiting on the first error. -/
def addValuesLoop {T : Type} (b : DataTableBuilder T) :
    List (String × T) → Except DataTableError (DataTableBuilder T)
  | [] => Except.ok b
  | (name, value) :: ps =>
    match b.add_value name value with
    | Except.error e => Except.error e
    | Except.ok b2 => addValuesLoop b2 ps

/-- The `try_for_each` body of `extract_data` (src/lib.rs:75): an errored
line read is skipped (`if let Ok(line)` — the `else` arm returns `Ok(())`);
a kept line contributes every `(name, value)` pair of `get_numbers`. -/
def extractLoop {T : Type} (M : NumModel T) (data_regex : List NamedRegex)
    (group : Bool) (b : DataTableBuilder T) :
    List (Except IoError String) → Except DataTableError (DataTableBuilder T)
  | [] => Except.ok b
  | Except.error _ :: rest => extractLoop M data_regex group b rest
  | Except.ok line :: rest =>
    match addValuesLoop b (get_numbers M line data_regex group) with
    | Except.error e => Except.error e
    | Except.ok b2 => extractLoop M data_regex group b2 rest

/-- `extract_data` (src/lib.rs:55): build a builder over the regex names,
fold the filtered line stream through the extraction closure, finalize.
Every `DataTableError` is wrapped into `ExtractionError::DataTable`. -/
def extract_data {T : Type} (M : NumModel T) (input : List (Except IoError String))
    (data_regex : List NamedRegex) (included_lines excluded_lines : List Regex)
    (base_data_name : Option String) (group : Bool) :
    Option (Except ExtractionError (DataTable T)) :=
  match DataTableBuilder.new T (data_regex.map (fun r => r.name)) with
  | Except.error e => some (Except.error (ExtractionError.DataTable e))
  | Except.ok b0 =>
    match extractLoop M data_regex group b0
        (filterIterOutput included_lines excluded_lines input) with
    | Except.error e => some (Except.error (ExtractionError.DataTable e))
    | Except.ok b =>
      match b.build M base_data_name with
      | none => none
      | some (Except.error e) => some (Except.error (ExtractionError.DataTable e))
      | some (Except.ok dt) => some (Except.ok dt)

/-- The retained-line list built by `filter`'s closure (src/lib.rs:122):
each `Ok` line of the filtered stream is appended, errored reads are
skipped. -/
def filterLines (included_lines excluded_lines : List Regex)
    (input : List (Except IoError String)) : List String :=
  (filterIterOutput included_lines excluded_lines input).filterMap
    (fun item => match item with
      | Except.ok line => some line
      | Except.error _ => none)

/-- `filter` (src/lib.rs:113): the closure never errors, so the call
always returns `Ok` with the retained lines. -/
def filter (included_lines excluded_lines : List Regex)
    (input : List (Except IoError String)) :
    Except ExtractionError (List String) :=
  Except.ok (filterLines included_lines excluded_lines input)

/-- The value `0, 1, 2, …` written in `T`: `zero`, then repeated
`+ one`, matching the auto-base generation of `add_row`. -/
def tOfNat {T : Type} (M : NumModel T) : Nat → T
  | 0 => M.zero
  | n + 1 => M.add (tOfNat M n) M.one

/-- A sequence of `add_row` calls, each required to succeed, as used by
the invariant claims that quantify over "any sequence of successful
`add_row` calls". -/
def add_rows {T : Type} (M : NumModel T) (dt : DataTable T) :
    List (List T) → Option (DataTable T)
  | [] => some dt
  | v :: vs =>
    match DataTable.add_row M dt v with
    | some (Except.ok dt2) => add_rows M dt2 vs
    | _ => none

/-- A concrete instantiation of the numeric model used by witnesses:
`T = Option Int` with `none` as the NaN sentinel and a small literal
parse table. -/
def intModel : NumModel (Option Int) :=
  { nan := none
    zero := some 0
    one := some 1
    add := fun a b =>
      match a, b with
      | some x, some y => some (x + y)
      | _, _ => none
    parse := fun s =>
      if s = "5" then some (some 5)
      else if s = "7" then some (some 7)
      else none }

/-- A concrete regex for witnesses: matches the line `"v 5"` with the
whole match and first group both `"5"`. -/
def rxFive : Regex :=
  ⟨fun s => if s = "v 5" then some [some "5", some "5"] else none⟩

/-- A concrete table for the `get_name` analysis: one column, two rows,
auto base; satisfies every documented length invariant. -/
def exDT5 : DataTable (Option Int) :=
  { value_columns := 1
    value_rows := 2
    base_data_index := none
    value_names := ["0"]
    value_data := [[some 1, some 2]]
    base_data := [some 0, some 1] }

/-- A concrete one-column builder whose single buffer is empty, used in
the `build` analysis. -/
def exBuilderC4 : DataTableBuilder (Option Int) := ⟨[("a", [])]⟩


/-! ## Helper lemmas -/

theorem matchesAny_eq_any (line : String) (rs : List Regex) :
    matchesAny line rs = rs.any (fun r => (r.captures line).isSome) := by
  induction rs with
  | nil => rfl
  | cons r rs ih =>
    cases h : (r.captures line).isSome <;> simp [matchesAny, h, ih]

theorem filterIterOutput_eq_filter (includes excludes : List Regex)
    (input : List (Except IoError String)) :
    filterIterOutput includes excludes input
      = input.filter (keepItem includes excludes) := by
  induction input with
  | nil => rfl
  | cons item rest ih =>
    cases item with
    | error e => simp [filterIterOutput, keepItem, List.filter_cons, ih]
    | ok line =>
      cases h1 : is_included line includes <;>
        cases h2 : is_ignored line excludes <;>
          simp [filterIterOutput, keepItem, List.filter_cons, h1, h2, ih]

theorem filterIterOutput_append (includes excludes : List Regex)
    (xs ys : List (Except IoError String)) :
    filterIterOutput includes excludes (xs ++ ys)
      = filterIterOutput includes excludes xs ++ filterIterOutput includes excludes ys := by
  simp [filterIterOutput_eq_filter, List.filter_append]

theorem mem_filterLines_keep (includes excludes : List Regex)
    (input : List (Except IoError String)) (line : String)
    (h : line ∈ filterLines includes excludes input) :
    is_included line includes = true ∧ is_ignored line excludes = false := by
  unfold filterLines at h
  rw [filterIterOutput_eq_filter] at h
  obtain ⟨item, hmem, hok⟩ := List.mem_filterMap.mp h
  cases item with
  | error e => simp at hok
  | ok l =>
    simp at hok
    subst hok
    have := (List.mem_filter.mp hmem).2
    simp [keepItem] at this
    exact ⟨this.1, this.2⟩

theorem filterLines_all_kept (includes excludes : List Regex)
    (ls : List String)
    (h : ∀ l ∈ ls, is_included l includes = true ∧ is_ignored l excludes = false) :
    filterLines includes excludes (ls.map Except.ok) = ls := by
  induction ls with
  | nil => rfl
  | cons l ls ih =>
    have hl := h l (by simp)
    unfold filterLines
    simp only [List.map_cons, filterIterOutput, hl.1, hl.2, if_true, if_false,
      List.filterMap_cons]
    have := ih (fun x hx => h x (by simp [hx]))
    unfold filterLines at this
    simp [this]

/-! ## Claim theorems -/

/-- C1: for every input line, the filter iterator keeps the line iff
(the includes list is empty, or at least one include regex finds a match
on the line) and no exclude regex finds a match on it; kept lines are
emitted exactly once, in stream order, never reordered, duplicated, or
merged — i.e. the emitted stream is exactly `List.filter` of that
predicate over the input stream (read errors are forwarded). -/
theorem filterIter_keeps_iff (includes excludes : List Regex)
    (input : List (Except IoError String)) :
    filterIterOutput includes excludes input = input.filter
      (fun item => match item with
        | Except.ok line =>
          (includes.isEmpty || includes.any (fun r => (r.captures line).isSome))
            && !(excludes.any (fun r => (r.captures line).isSome))
        | Except.error _ => true) := by
  rw [filterIterOutput_eq_filter]
  apply List.filter_congr
  intro item _
  cases item with
  | error e => rfl
  | ok line =>
    simp only [keepItem, is_included, is_ignored, matchesAny_eq_any]
    cases h1 : includes.any (fun r => (r.captures line).isSome) <;>
      cases h2 : includes.isEmpty <;> simp [h1, h2]

/-- C9: running `filter` with regex sets X, Y on the output of `filter`
with the same sets returns that output unchanged — every line kept by one
pass is kept again by the second. -/
theorem filter_idempotent (includes excludes : List Regex)
    (input : List (Except IoError String)) :
    filter includes excludes
        ((filterLines includes excludes input).map Except.ok)
      = Except.ok (filterLines includes excludes input) := by
  unfold filter
  rw [filterLines_all_kept]
  intro l hl
  exact mem_filterLines_keep includes excludes input l hl

theorem extractLoop_skips_error {T : Type} (M : NumModel T)
    (data_regex : List NamedRegex) (group : Bool) (e : IoError) :
    ∀ (l1 l2 : List (Except IoError String)) (b : DataTableBuilder T),
      extractLoop M data_regex group b (l1 ++ Except.error e :: l2)
        = extractLoop M data_regex group b (l1 ++ l2) := by
  intro l1
  induction l1 with
  | nil => intro l2 b; rfl
  | cons item rest ih =>
    intro l2 b
    cases item with
    | error e2 =>
      simp only [List.cons_append, extractLoop]
      exact ih l2 b
    | ok line =>
      simp only [List.cons_append, extractLoop]
      cases addValuesLoop b (get_numbers M line data_regex group) with
      | error e3 => rfl
      | ok b2 => exact ih l2 b2

theorem extract_data_never_read_error {T : Type} (M : NumModel T)
    (data_regex : List NamedRegex) (includes excludes : List Regex)
    (bn : Option String) (g : Bool) (input : List (Except IoError String))
    (ioe : IoError) :
    extract_data M input data_regex includes excludes bn g
      ≠ some (Except.error (ExtractionError.ReadError ioe)) := by
  unfold extract_data
  cases DataTableBuilder.new T (data_regex.map (fun r => r.name)) with
  | error e => simp
  | ok b0 =>
    simp only
    cases extractLoop M data_regex g b0 (filterIterOutput includes excludes input) with
    | error e => simp
    | ok b =>
      simp only
      cases b.build M bn with
      | none => simp
      | some r => cases r with
        | error e => simp
        | ok dt => simp

/-- C8: in both `extract_data` and `filter`, a line whose read from the
underlying stream yields an error is silently skipped: removing it from
the stream changes neither result, the io error is never surfaced to the
caller (`filter` always returns `Ok`; `extract_data` never returns
`ReadError`), and iteration continues with subsequent lines. -/
theorem read_errors_skipped {T : Type} (M : NumModel T)
    (data_regex : List NamedRegex) (includes excludes : List Regex)
    (bn : Option String) (g : Bool)
    (xs ys : List (Except IoError String)) (e : IoError) :
    filter includes excludes (xs ++ Except.error e :: ys)
        = filter includes excludes (xs ++ ys) ∧
    extract_data M (xs ++ Except.error e :: ys) data_regex includes excludes bn g
        = extract_data M (xs ++ ys) data_regex includes excludes bn g ∧
    (∀ input ioe, extract_data M input data_regex includes excludes bn g
        ≠ some (Except.error (ExtractionError.ReadError ioe))) ∧
    (∀ input, ∃ out, filter includes excludes input = Except.ok out) := by
  refine ⟨?_, ?_, ?_, ?_⟩
  · unfold filter filterLines
    rw [show xs ++ Except.error e :: ys = xs ++ [Except.error e] ++ ys by simp,
      filterIterOutput_append, filterIterOutput_append, filterIterOutput_append]
    simp [filterIterOutput, List.filterMap_append]
  · unfold extract_data
    cases DataTableBuilder.new T (data_regex.map (fun r => r.name)) with
    | error e2 => rfl
    | ok b0 =>
      simp only
      rw [show xs ++ Except.error e :: ys = xs ++ [Except.error e] ++ ys by simp,
        filterIterOutput_append, filterIterOutput_append, filterIterOutput_append]
      have : filterIterOutput includes excludes [Except.error e] = [Except.error e] := rfl
      rw [this, List.append_assoc, List.singleton_append,
        extractLoop_skips_error M data_regex g e]
  · intro input ioe
    exact extract_data_never_read_error M data_regex includes excludes bn g input ioe
  · intro input
    exact ⟨_, rfl⟩

theorem extractLoop_no_regexes {T : Type} (M : NumModel T) (g : Bool) :
    ∀ (l : List (Except IoError String)) (b : DataTableBuilder T),
      extractLoop M [] g b l = Except.ok b := by
  intro l
  induction l with
  | nil => intro b; rfl
  | cons item rest ih =>
    intro b
    cases item with
    | error e => exact ih b
    | ok line => exact ih b

/-- C10: `extract_data` with an empty list of data regexes always fails
with `DataTable InconsistentBuilderData` (the spec's
`TableFailure(InconsistentBuilderData)`), regardless of the stream's
content; it never returns a zero-column table. -/
theorem extract_data_empty_regexes {T : Type} (M : NumModel T)
    (input : List (Except IoError String)) (includes excludes : List Regex)
    (bn : Option String) (g : Bool) :
    extract_data M input [] includes excludes bn g
      = some (Except.error
          (ExtractionError.DataTable DataTableError.InconsistentBuilderData)) := by
  unfold extract_data
  simp only [List.map_nil]
  rw [show DataTableBuilder.new T [] = Except.ok ⟨[]⟩ from rfl]
  simp only
  rw [extractLoop_no_regexes M g (filterIterOutput includes excludes input) ⟨[]⟩]
  rfl

theorem intModel_parse_not_nan :
    ∀ s t, intModel.parse s = some t → t ≠ intModel.nan := by
  intro s t h
  by_cases h5 : s = "5"
  · simp [intModel, h5] at h
    subst h
    simp [intModel]
  · by_cases h7 : s = "7"
    · simp [intModel, h5, h7] at h
      subst h
      simp [intModel]
    · simp [intModel, h5, h7] at h

/-- C2: field extraction returns exactly one `(name, value)` pair per
regex, in the given order; the value is the parse of capture index 0 when
`group = false` and of capture index 1 when `group = true`; and — provided
the assumed external parser never outputs the NaN sentinel itself — the
value is NaN exactly when the regex finds no match on the line, the
requested capture index is absent, or parsing the captured substring
fails. -/
theorem get_numbers_spec {T : Type} (M : NumModel T)
    (hM : ∀ s t, M.parse s = some t → t ≠ M.nan)
    (line : String) (rgxs : List NamedRegex) (group : Bool) :
    get_numbers M line rgxs group
        = rgxs.map (fun r => (r.name, get_number M line r.regex group)) ∧
    ∀ rgx : Regex,
      (∀ caps d t, rgx.captures line = some caps →
        caps.get? (if group then 1 else 0) = some (some d) →
        M.parse d = some t → get_number M line rgx group = t) ∧
      (get_number M line rgx group = M.nan ↔
        rgx.captures line = none ∨
        ∃ caps, rgx.captures line = some caps ∧
          (caps.get? (if group then 1 else 0) = none ∨
           caps.get? (if group then 1 else 0) = some none ∨
           ∃ d, caps.get? (if group then 1 else 0) = some (some d) ∧
             M.parse d = none)) := by
  refine ⟨rfl, ?_⟩
  intro rgx
  constructor
  · intro caps d t hcaps hget hparse
    unfold get_number
    rw [hcaps]
    simp only [hget, hparse]
  · cases hcaps : rgx.captures line with
    | none =>
      refine iff_of_true ?_ (Or.inl rfl)
      unfold get_number
      rw [hcaps]
    | some caps =>
      cases hget : caps.get? (if group then 1 else 0) with
      | none =>
        refine iff_of_true ?_ (Or.inr ⟨caps, rfl, Or.inl hget⟩)
        unfold get_number
        rw [hcaps]
        simp only [hget]
      | some g0 =>
        cases g0 with
        | none =>
          refine iff_of_true ?_ (Or.inr ⟨caps, rfl, Or.inr (Or.inl hget)⟩)
          unfold get_number
          rw [hcaps]
          simp only [hget]
        | some d =>
          cases hparse : M.parse d with
          | none =>
            refine iff_of_true ?_
              (Or.inr ⟨caps, rfl, Or.inr (Or.inr ⟨d, hget, hparse⟩)⟩)
            unfold get_number
            rw [hcaps]
            simp only [hget, hparse]
          | some n =>
            have heval : get_number M line rgx group = n := by
              unfold get_number
              rw [hcaps]
              simp only [hget, hparse]
            refine iff_of_false ?_ ?_
            · rw [heval]
              exact hM d n hparse
            · rintro (hnone | ⟨caps2, hc2, hrest⟩)
              · cases hnone
              · have hcc : caps2 = caps := (Option.some.inj hc2).symm
                subst hcc
                rcases hrest with h1 | h1 | ⟨d2, hd2, hp2⟩
                · rw [hget] at h1; cases h1
                · rw [hget] at h1; cases h1
                · rw [hget] at hd2
                  have : d2 = d := by cases hd2; rfl
                  subst this
                  rw [hparse] at hp2
                  cases hp2

/-- Witness for C2: the concrete model, line and regex evaluate as the
theorem states — one pair per regex, value `5` parsed from the whole
match. -/
theorem get_numbers_spec_witness :
    get_numbers intModel "v 5" [⟨"v", rxFive⟩] false
        = [("v", get_number intModel "v 5" rxFive false)] ∧
    get_number intModel "v 5" rxFive false = some 5 :=
  ⟨(get_numbers_spec intModel intModel_parse_not_nan "v 5"
      [⟨"v", rxFive⟩] false).1,
   ((get_numbers_spec intModel intModel_parse_not_nan "v 5"
      [⟨"v", rxFive⟩] false).2 rxFive).1
     [some "5", some "5"] "5" (some 5) rfl rfl rfl⟩

theorem get?_zip_map_append {T : Type} :
    ∀ (l1 : List (List T)) (l2 : List T) (i : Nat) (c : List T) (x : T),
      l1.get? i = some c → l2.get? i = some x →
      ((l1.zip l2).map (fun p => p.1 ++ [p.2])).get? i = some (c ++ [x]) := by
  intro l1
  induction l1 with
  | nil => intro l2 i c x h1 _; cases h1
  | cons a l1 ih =>
    intro l2 i c x h1 h2
    cases l2 with
    | nil => cases h2
    | cons b l2 =>
      cases i with
      | zero =>
        cases h1
        cases h2
        rfl
      | succ i => exact ih l2 i c x h1 h2

/-- C3: `add_row(v)` fails with `InvalidColumnCount` iff `|v|` differs
from `column_count` (the table, being returned unchanged only through the
error, is untouched); otherwise it appends `v[i]` to column `i` for every
`i`, appends `v[base_index]` to the base axis when `base_index` is set and
otherwise `previous_base + 1` (or `T::zero()` when the table was empty),
and increments `row_count` by 1.  The hypotheses are the data-model
invariants (§3): a present `base_index` is below `column_count`, and the
auto base has `row_count` entries. -/
theorem add_row_spec {T : Type} (M : NumModel T) (dt : DataTable T)
    (v : List T)
    (hbase : ∀ bi, dt.base_data_index = some bi → bi < dt.value_columns)
    (hrows : dt.base_data_index = none → dt.base_data.length = dt.value_rows) :
    (DataTable.add_row M dt v
        = some (Except.error DataTableError.InvalidColumnCount)
      ↔ v.length ≠ dt.value_columns) ∧
    (v.length = dt.value_columns →
      ∃ dt', DataTable.add_row M dt v = some (Except.ok dt') ∧
        dt'.value_rows = dt.value_rows + 1 ∧
        (∀ i c x, dt.value_data.get? i = some c → v.get? i = some x →
          dt'.value_data.get? i = some (c ++ [x])) ∧
        (∀ bi, dt.base_data_index = some bi →
          ∃ x, v.get? bi = some x ∧ dt'.base_data = dt.base_data ++ [x]) ∧
        (dt.base_data_index = none → dt.value_rows = 0 →
          dt'.base_data = dt.base_data ++ [M.zero]) ∧
        (dt.base_data_index = none → 0 < dt.value_rows →
          ∃ p, dt.base_data.getLast? = some p ∧
            dt'.base_data = dt.base_data ++ [M.add p M.one])) := by
  constructor
  · by_cases hv : v.length = dt.value_columns
    · constructor
      · intro herr
        unfold DataTable.add_row at herr
        rw [if_neg (by omega)] at herr
        cases hb : dt.base_data_index with
        | none =>
          rw [hb] at herr
          simp at herr
        | some bi =>
          rw [hb] at herr
          have hlt : bi < v.length := hv ▸ hbase bi hb
          have hx := List.get?_eq_get hlt
          simp only [hx] at herr
          simp at herr
      · intro hne; exact absurd hv hne
    · constructor
      · intro _; exact hv
      · intro _
        unfold DataTable.add_row
        rw [if_pos (by omega)]
  · intro hv
    unfold DataTable.add_row
    rw [if_neg (by omega)]
    cases hb : dt.base_data_index with
    | some bi =>
      have hlt : bi < v.length := hv ▸ hbase bi hb
      have hx := List.get?_eq_get hlt
      simp only [hx]
      refine ⟨_, rfl, rfl, ?_, ?_, ?_, ?_⟩
      · intro i c x h1 h2
        exact get?_zip_map_append dt.value_data v i c x h1 h2
      · intro bi2 hb2
        cases Option.some.inj hb2
        exact ⟨v.get ⟨bi, hlt⟩, hx, rfl⟩
      · intro habs
        exact Option.noConfusion habs
      · intro habs
        exact Option.noConfusion habs
    | none =>
      refine ⟨_, rfl, rfl, ?_, ?_, ?_, ?_⟩
      · intro i c x h1 h2
        exact get?_zip_map_append dt.value_data v i c x h1 h2
      · intro bi2 hb2
        exact Option.noConfusion hb2
      · intro _ hr0
        have hbd : dt.base_data = [] :=
          List.length_eq_zero.mp (by rw [hrows hb, hr0])
        rw [hbd]
        rfl
      · intro _ hrpos
        have hbd : dt.base_data ≠ [] := by
          intro habs
          rw [habs] at hrows
          have := hrows hb
          simp at this
          omega
        rcases List.getLast?_eq_getLast dt.base_data hbd with hlast
        refine ⟨dt.base_data.getLast hbd, hlast, ?_⟩
        simp only [hlast]

/-- Witness for C3: adding `[3, 4]` to a fresh two-column table succeeds,
bumps `row_count` to 1, and starts the auto base at zero. -/
theorem add_row_spec_witness :
    ∃ dt', DataTable.add_row intModel (DataTable.new (Option Int) 2 none none)
        [some 3, some 4] = some (Except.ok dt') ∧
      dt'.value_rows = 1 ∧ dt'.base_data = [intModel.zero] := by
  obtain ⟨dt', h1, h2, -, -, h5, -⟩ :=
    (add_row_spec intModel (DataTable.new (Option Int) 2 none none)
      [some 3, some 4]
      (by intro bi h; cases h) (by intro h; rfl)).2 (by rfl)
  refine ⟨dt', h1, ?_, ?_⟩
  · rw [h2]
    rfl
  · rw [h5 rfl rfl]
    rfl

theorem add_rows_auto_base {T : Type} (M : NumModel T) :
    ∀ (rows : List (List T)) (dt dt' : DataTable T),
      dt.base_data_index = none →
      dt.base_data = (List.range dt.value_rows).map (tOfNat M) →
      add_rows M dt rows = some dt' →
      dt'.base_data_index = none ∧
      dt'.base_data = (List.range dt'.value_rows).map (tOfNat M) := by
  intro rows
  induction rows with
  | nil =>
    intro dt dt' hb hbd h
    cases Option.some.inj h
    exact ⟨hb, hbd⟩
  | cons v vs ih =>
    intro dt dt' hb hbd h
    unfold add_rows at h
    by_cases hv : v.length = dt.value_columns
    · unfold DataTable.add_row at h
      rw [if_neg (by omega)] at h
      simp only [hb] at h
      cases hlast : dt.base_data.getLast? with
      | none =>
        simp only [hlast] at h
        have hnil : dt.base_data = [] := by
          cases hdb : dt.base_data with
          | nil => rfl
          | cons a l =>
            rw [hdb] at hlast
            rw [List.getLast?_eq_getLast (a :: l) (by simp)] at hlast
            cases hlast
        have hn0 : dt.value_rows = 0 := by
          have hlen := congrArg List.length hbd
          rw [hnil] at hlen
          simp at hlen
          omega
        refine ih _ dt' rfl ?_ h
        rw [hnil, hn0]
        rfl
      | some prev =>
        simp only [hlast] at h
        have hne : dt.base_data ≠ [] := by
          intro habs
          rw [habs] at hlast
          cases hlast
        have hn : dt.value_rows ≠ 0 := by
          intro habs
          rw [habs] at hbd
          simp at hbd
          exact hne hbd
        obtain ⟨k, hk⟩ := Nat.exists_eq_succ_of_ne_zero hn
        rw [hk, List.range_succ, List.map_append, List.map_singleton] at hbd
        rw [hbd, List.getLast?_concat] at hlast
        have hprev : prev = tOfNat M k := (Option.some.inj hlast).symm
        refine ih _ dt' rfl ?_ h
        rw [hbd, hprev, hk, List.range_succ, List.map_append,
          List.map_singleton, List.range_succ, List.map_append,
          List.map_singleton]
        rfl
    · unfold DataTable.add_row at h
      rw [if_pos (by omega)] at h
      cases h

/-- C7: for every table constructed without an explicit base index, after
any sequence of successful `add_row` calls the base column is the sequence
`0, 1, 2, …` in T (zero, then repeated `+ one`), of length `row_count`. -/
theorem auto_base_spec {T : Type} (M : NumModel T) (columns : Nat)
    (names : Option (List String)) (rows : List (List T))
    (dt' : DataTable T)
    (h : add_rows M (DataTable.new T columns names none) rows = some dt') :
    dt'.base_data = (List.range dt'.value_rows).map (tOfNat M) ∧
    dt'.base_data.length = dt'.value_rows := by
  have := add_rows_auto_base M rows (DataTable.new T columns names none)
    dt' rfl rfl h
  refine ⟨this.2, ?_⟩
  rw [this.2]
  simp

/-- Witness for C7: two rows appended to a fresh auto-base table yield
base column `[0, 1]`. -/
theorem auto_base_spec_witness :
    ∃ dt', add_rows intModel (DataTable.new (Option Int) 1 none none)
        [[some 5], [some 7]] = some dt' ∧
      dt'.base_data = (List.range dt'.value_rows).map (tOfNat intModel) ∧
      dt'.base_data = [some 0, some 1] := by
  refine ⟨_, rfl, (auto_base_spec intModel 1 none [[some 5], [some 7]] _ rfl).1, ?_⟩
  rfl

/-- Counterexample to C6 as stated: on a table with `base_index = 0`,
`add_row([5])` does NOT leave `base_data` unchanged — the source's
`self.base_data.push(data[base_index])` grows it from `[]` to `[5]`. -/
theorem base_data_written_cex :
    ∃ dt', DataTable.add_row intModel
        (DataTable.new (Option Int) 1 none (some 0)) [some 5]
        = some (Except.ok dt') ∧
      (DataTable.new (Option Int) 1 none (some 0)).base_data = [] ∧
      dt'.base_data = [some 5] ∧
      dt'.base_data ≠ (DataTable.new (Option Int) 1 none (some 0)).base_data := by
  refine ⟨_, rfl, rfl, rfl, ?_⟩
  decide

/-- C6 (amended): when `base_index` is present, `add_row` appends
`values[base_index]` to `base_data` (the field is written, not unused);
`get_base_data` — hence the row accessors — reads the referenced value
column `columns[base_index]` instead, and the two stay equal
element-for-element whenever they were equal before the call. -/
theorem base_index_add_row_spec {T : Type} (M : NumModel T)
    (dt : DataTable T) (bi : Nat) (v : List T)
    (hb : dt.base_data_index = some bi)
    (hbi : bi < dt.value_columns)
    (hlen : v.length = dt.value_columns) :
    ∃ x dt', v.get? bi = some x ∧
      DataTable.add_row M dt v = some (Except.ok dt') ∧
      dt'.base_data = dt.base_data ++ [x] ∧
      dt.get_base_data = dt.value_data.get? bi ∧
      dt'.get_base_data = dt'.value_data.get? bi ∧
      (∀ c, dt.value_data.get? bi = some c → dt.base_data = c →
        dt'.value_data.get? bi = some (c ++ [x]) ∧
        dt'.base_data = c ++ [x]) := by
  have hlt : bi < v.length := by omega
  have hx := List.get?_eq_get hlt
  unfold DataTable.add_row
  rw [if_neg (by omega)]
  simp only [hb, hx]
  refine ⟨v.get ⟨bi, hlt⟩, _, rfl, rfl, rfl, ?_, ?_, ?_⟩
  · unfold DataTable.get_base_data
    rw [hb]
  · unfold DataTable.get_base_data
    rfl
  · intro c h1 h2
    constructor
    · exact get?_zip_map_append dt.value_data v bi c (v.get ⟨bi, hlt⟩) h1 hx
    · rw [← h2]

/-- Witness for C6 (amended): on a concrete one-column base-indexed table
`add_row([5])` appends `5` to `base_data`. -/
theorem base_index_add_row_spec_witness :
    ∃ x dt', ([some 5] : List (Option Int)).get? 0 = some x ∧
      DataTable.add_row intModel
        (DataTable.new (Option Int) 1 none (some 0)) [some 5]
        = some (Except.ok dt') ∧
      dt'.base_data
        = (DataTable.new (Option Int) 1 none (some 0)).base_data ++ [x] := by
  obtain ⟨x, dt', hh1, hh2, hh3, -⟩ :=
    base_index_add_row_spec intModel
      (DataTable.new (Option Int) 1 none (some 0)) 0 [some 5]
      rfl (by decide) rfl
  exact ⟨x, dt', hh1, hh2, hh3⟩

/-- Counterexample to C5 as stated: `exDT5` (one column, two rows,
satisfying every length invariant) passes the bound check at `i = 1`
(since `1 < row_count = 2`) but `get_name(1)` does not return a column
name — `self.value_names[1]` panics instead of producing "the i-th
column's name". -/
theorem get_name_panics_cex :
    1 < exDT5.value_rows ∧
    (∀ c ∈ exDT5.value_data, c.length = exDT5.value_rows) ∧
    exDT5.value_names.length = exDT5.value_columns ∧
    DataTable.get_name exDT5 1 = none := by
  refine ⟨by decide, by decide, by decide, rfl⟩

/-- C5 (amended): under the data-model length invariants, `get_name(i)`
fails with `InvalidColumnIndex` iff `i ≥` the base-column length, which
equals `row_count` (not `column_count`); for `i` below that bound it
returns the i-th column's name when additionally `i < column_count`, and
panics when `column_count ≤ i < row_count`. -/
theorem get_name_spec {T : Type} (dt : DataTable T) (i : Nat)
    (h1 : dt.value_data.length = dt.value_columns)
    (h2 : ∀ c ∈ dt.value_data, c.length = dt.value_rows)
    (h3 : dt.base_data_index = none → dt.base_data.length = dt.value_rows)
    (h4 : ∀ bi, dt.base_data_index = some bi → bi < dt.value_columns)
    (h5 : dt.value_names.length = dt.value_columns) :
    (dt.get_name i = some (Except.error DataTableError.InvalidColumnIndex)
      ↔ dt.value_rows ≤ i) ∧
    (i < dt.value_rows → i < dt.value_columns →
      ∃ n, dt.value_names.get? i = some n
        ∧ dt.get_name i = some (Except.ok n)) ∧
    (i < dt.value_rows → dt.value_columns ≤ i → dt.get_name i = none) := by
  obtain ⟨bd, hgbd, hbdlen⟩ :
      ∃ bd, dt.get_base_data = some bd ∧ bd.length = dt.value_rows := by
    cases hb : dt.base_data_index with
    | none =>
      refine ⟨dt.base_data, ?_, h3 hb⟩
      unfold DataTable.get_base_data
      rw [hb]
    | some bi =>
      have hbi : bi < dt.value_data.length := by
        rw [h1]
        exact h4 bi hb
      have hc := List.get?_eq_get hbi
      refine ⟨dt.value_data.get ⟨bi, hbi⟩, ?_, h2 _ (List.get?_mem hc)⟩
      unfold DataTable.get_base_data
      rw [hb]
      exact hc
  by_cases hle : dt.value_rows ≤ i
  · have hev : dt.get_name i
        = some (Except.error DataTableError.InvalidColumnIndex) := by
      unfold DataTable.get_name DataTable.check_column_index
      simp only [hgbd]
      rw [if_pos (by omega)]
    exact ⟨iff_of_true hev hle,
      fun hlti _ => absurd hlti (by omega),
      fun hlti _ => absurd hlti (by omega)⟩
  · by_cases hcol : i < dt.value_columns
    · have hni : i < dt.value_names.length := by omega
      have hn := List.get?_eq_get hni
      have hev : dt.get_name i
          = some (Except.ok (dt.value_names.get ⟨i, hni⟩)) := by
        unfold DataTable.get_name DataTable.check_column_index
        simp only [hgbd]
        rw [if_neg (by omega)]
        simp only [hn]
      exact ⟨iff_of_false (by simp [hev]) (by omega),
        fun _ _ => ⟨_, hn, hev⟩,
        fun _ h => absurd hcol (by omega)⟩
    · have hn : dt.value_names.get? i = none := by
        rw [List.get?_eq_none]
        omega
      have hev : dt.get_name i = none := by
        unfold DataTable.get_name DataTable.check_column_index
        simp only [hgbd]
        rw [if_neg (by omega)]
        simp only [hn]
      exact ⟨iff_of_false (by simp [hev]) (by omega),
        fun _ h => absurd h hcol,
        fun _ _ => hev⟩

/-- Witness for C5 (amended): on `exDT5`, `get_name 0` returns the first
column's name `"0"`, `get_name 1` (row bound passed, name bound exceeded)
panics, and `get_name 2` fails `InvalidColumnIndex`. -/
theorem get_name_spec_witness :
    DataTable.get_name exDT5 0 = some (Except.ok "0") ∧
    DataTable.get_name exDT5 1 = none ∧
    DataTable.get_name exDT5 2
      = some (Except.error DataTableError.InvalidColumnIndex) := by
  have hinv1 : exDT5.value_data.length = exDT5.value_columns := by decide
  have hinv2 : ∀ c ∈ exDT5.value_data, c.length = exDT5.value_rows := by decide
  have hinv3 : exDT5.base_data_index = none →
      exDT5.base_data.length = exDT5.value_rows := by
    intro _
    decide
  have hinv4 : ∀ bi, exDT5.base_data_index = some bi →
      bi < exDT5.value_columns := by
    intro bi h
    cases h
  have hinv5 : exDT5.value_names.length = exDT5.value_columns := by decide
  refine ⟨?_, ?_, ?_⟩
  · obtain ⟨-, hmid, -⟩ := get_name_spec exDT5 0 hinv1 hinv2 hinv3 hinv4 hinv5
    obtain ⟨n, hn, hg⟩ := hmid (by decide) (by decide)
    have : n = "0" := by
      have : some n = some "0" := by rw [← hn]; rfl
      exact Option.some.inj this
    rw [← this]
    exact hg
  · obtain ⟨-, -, hpanic⟩ := get_name_spec exDT5 1 hinv1 hinv2 hinv3 hinv4 hinv5
    exact hpanic (by decide) (by decide)
  · obtain ⟨hiff, -, -⟩ := get_name_spec exDT5 2 hinv1 hinv2 hinv3 hinv4 hinv5
    exact hiff.mpr (by decide)

theorem le_foldl_max (a : Nat) (l : List Nat) : a ≤ l.foldl Nat.max a := by
  induction l generalizing a with
  | nil => exact Nat.le_refl a
  | cons b bs ih => exact Nat.le_trans (Nat.le_max_left a b) (ih (Nat.max a b))

theorem mem_le_foldl_max (x : Nat) :
    ∀ (l : List Nat) (a : Nat), x ∈ l → x ≤ l.foldl Nat.max a := by
  intro l
  induction l with
  | nil =>
    intro a hx
    cases hx
  | cons b bs ih =>
    intro a hx
    cases List.mem_cons.mp hx with
    | inl h =>
      subst h
      exact Nat.le_trans (Nat.le_max_right a x) (le_foldl_max _ bs)
    | inr h => exact ih (Nat.max a b) h

theorem foldl_min_le (a : Nat) (l : List Nat) : l.foldl Nat.min a ≤ a := by
  induction l generalizing a with
  | nil => exact Nat.le_refl a
  | cons b bs ih => exact Nat.le_trans (ih (Nat.min a b)) (Nat.min_le_left a b)

theorem foldl_min_le_mem (x : Nat) :
    ∀ (l : List Nat) (a : Nat), x ∈ l → l.foldl Nat.min a ≤ x := by
  intro l
  induction l with
  | nil =>
    intro a hx
    cases hx
  | cons b bs ih =>
    intro a hx
    cases List.mem_cons.mp hx with
    | inl h =>
      subst h
      exact Nat.le_trans (foldl_min_le _ bs) (Nat.min_le_right a x)
    | inr h => exact ih (Nat.min a b) h

theorem foldl_max_all_eq (a : Nat) :
    ∀ l : List Nat, (∀ x ∈ l, x = a) → l.foldl Nat.max a = a := by
  intro l
  induction l with
  | nil => intro _; rfl
  | cons b bs ih =>
    intro h
    have hb : b = a := h b (by simp)
    subst hb
    simp only [List.foldl_cons, Nat.max_self]
    exact ih (fun x hx => h x (by simp [hx]))

theorem foldl_min_all_eq (a : Nat) :
    ∀ l : List Nat, (∀ x ∈ l, x = a) → l.foldl Nat.min a = a := by
  intro l
  induction l with
  | nil => intro _; rfl
  | cons b bs ih =>
    intro h
    have hb : b = a := h b (by simp)
    subst hb
    simp only [List.foldl_cons, Nat.min_self]
    exact ih (fun x hx => h x (by simp [hx]))

theorem optMax_eq_optMin_iff (a : Nat) (as : List Nat) :
    optMax (a :: as) = optMin (a :: as) ↔ ∀ x ∈ as, x = a := by
  unfold optMax optMin
  constructor
  · intro h x hx
    have h1 := Option.some.inj h
    have h2 := mem_le_foldl_max x as a hx
    have h3 := foldl_min_le_mem x as a hx
    have h4 := le_foldl_max a as
    have h5 := foldl_min_le a as
    omega
  · intro h
    show some (List.foldl Nat.max a as) = some (List.foldl Nat.min a as)
    rw [foldl_max_all_eq a as h, foldl_min_all_eq a as h]

theorem get_len_empty {T : Type} (b : DataTableBuilder T)
    (h : b.data = []) :
    b.get_len = Except.error DataTableError.InconsistentBuilderData := by
  unfold DataTableBuilder.get_len
  rw [h]
  rfl

theorem get_len_all_eq {T : Type} (b : DataTableBuilder T) (len : Nat)
    (hne : b.data ≠ [])
    (hall : ∀ p ∈ b.data, p.2.length = len) :
    b.get_len = Except.ok len := by
  unfold DataTableBuilder.get_len
  cases hd : b.data with
  | nil => exact absurd hd hne
  | cons p ps =>
    simp only [List.map_cons]
    have hp : p.2.length = len := hall p (by rw [hd]; simp)
    have hx : ∀ x ∈ ps.map (fun q => q.2.length), x = p.2.length := by
      intro x hxm
      obtain ⟨q, hq, hqx⟩ := List.mem_map.mp hxm
      rw [← hqx, hall q (by rw [hd]; exact List.mem_cons_of_mem _ hq), hp]
    rw [if_neg (not_not_intro ((optMax_eq_optMin_iff _ _).mpr hx))]
    show Except.ok p.2.length = Except.ok len
    rw [hp]

theorem get_len_differs {T : Type} (b : DataTableBuilder T)
    (p q : String × List T) (hp : p ∈ b.data) (hq : q ∈ b.data)
    (hne : p.2.length ≠ q.2.length) :
    b.get_len = Except.error DataTableError.InconsistentBuilderData := by
  unfold DataTableBuilder.get_len
  cases hd : b.data with
  | nil =>
    rw [hd] at hp
    cases hp
  | cons r rs =>
    simp only [List.map_cons]
    have hcond : optMax (r.2.length :: rs.map (fun s => s.2.length))
        ≠ optMin (r.2.length :: rs.map (fun s => s.2.length)) := by
      intro heq
      have hx := (optMax_eq_optMin_iff _ _).mp heq
      have hmem : ∀ s ∈ b.data, s.2.length = r.2.length := by
        intro s hs
        rw [hd] at hs
        cases List.mem_cons.mp hs with
        | inl h => rw [h]
        | inr h => exact hx _ (List.mem_map_of_mem _ h)
      exact hne (by rw [hmem p hp, hmem q hq])
    rw [if_pos hcond]

theorem listPosition_lt_length (name : String) :
    ∀ (l : List String) (i : Nat), listPosition name l = some i → i < l.length := by
  intro l
  induction l with
  | nil =>
    intro i h
    cases h
  | cons x xs ih =>
    intro i h
    unfold listPosition at h
    by_cases hx : x = name
    · rw [if_pos hx] at h
      cases Option.some.inj h
      simp
    · rw [if_neg hx] at h
      cases hp : listPosition name xs with
      | none =>
        rw [hp] at h
        cases h
      | some j =>
        rw [hp] at h
        have hij : j + 1 = i := Option.some.inj h
        have := ih j hp
        simp only [List.length_cons]
        omega

theorem listPosition_mem (name : String) :
    ∀ l : List String, name ∈ l ↔ ∃ i, listPosition name l = some i := by
  intro l
  induction l with
  | nil => simp [listPosition]
  | cons x xs ih =>
    constructor
    · intro h
      by_cases hx : x = name
      · exact ⟨0, by unfold listPosition; rw [if_pos hx]⟩
      · have hmem : name ∈ xs := by
          cases List.mem_cons.mp h with
          | inl h2 => exact absurd h2.symm hx
          | inr h2 => exact h2
        obtain ⟨i, hi⟩ := ih.mp hmem
        refine ⟨i + 1, ?_⟩
        unfold listPosition
        rw [if_neg hx, hi]
        rfl
    · rintro ⟨i, hi⟩
      unfold listPosition at hi
      by_cases hx : x = name
      · rw [hx]
        exact List.mem_cons_self _ _
      · rw [if_neg hx] at hi
        cases hp : listPosition name xs with
        | none =>
          rw [hp] at hi
          cases hi
        | some j => exact List.mem_cons_of_mem _ (ih.mpr ⟨j, hp⟩)

theorem collectRow_all_some {T : Type} (len i : Nat) (hi : i < len) :
    ∀ d : List (String × List T), (∀ p ∈ d, p.2.length = len) →
      ∃ row, collectRow i d = some row ∧ row.length = d.length := by
  intro d
  induction d with
  | nil =>
    intro _
    exact ⟨[], rfl, rfl⟩
  | cons p ps ih =>
    intro hall
    have hp : i < p.2.length := by
      rw [hall p (by simp)]
      omega
    have hx := List.get?_eq_get hp
    obtain ⟨row, hrow, hlen⟩ := ih (fun q hq => hall q (List.mem_cons_of_mem _ hq))
    refine ⟨p.2.get ⟨i, hp⟩ :: row, ?_, by simp [hlen]⟩
    unfold collectRow
    simp only [hx, hrow]
    rfl

theorem add_row_ok_fields {T : Type} (M : NumModel T) (dt : DataTable T)
    (row : List T) (hlen : row.length = dt.value_columns)
    (hbase : ∀ bi, dt.base_data_index = some bi → bi < row.length) :
    ∃ dt2, DataTable.add_row M dt row = some (Except.ok dt2) ∧
      dt2.value_columns = dt.value_columns ∧
      dt2.base_data_index = dt.base_data_index := by
  unfold DataTable.add_row
  rw [if_neg (by omega)]
  cases hb : dt.base_data_index with
  | some bi =>
    have hx := List.get?_eq_get (hbase bi hb)
    simp only [hx]
    exact ⟨_, rfl, rfl, rfl⟩
  | none => exact ⟨_, rfl, rfl, rfl⟩

theorem buildLoop_ok {T : Type} (M : NumModel T) (b : DataTableBuilder T)
    (len : Nat) (hall : ∀ p ∈ b.data, p.2.length = len) :
    ∀ (idxs : List Nat) (dt : DataTable T),
      (∀ i ∈ idxs, i < len) →
      dt.value_columns = b.data.length →
      (∀ bi, dt.base_data_index = some bi → bi < b.data.length) →
      ∃ dt', buildLoop M b idxs dt = some (Except.ok dt') := by
  intro idxs
  induction idxs with
  | nil =>
    intro dt _ _ _
    exact ⟨dt, rfl⟩
  | cons i idxs ih =>
    intro dt hlt hcols hbase
    have hi : i < len := hlt i (by simp)
    obtain ⟨row, hrow, hrlen⟩ := collectRow_all_some len i hi b.data hall
    have hgr : b.get_row i = Except.ok row := by
      unfold DataTableBuilder.get_row
      simp only [hrow]
    obtain ⟨dt2, hadd, hc2, hb2⟩ := add_row_ok_fields M dt row
      (by rw [hrlen, hcols])
      (fun bi h => by rw [hrlen]; exact hbase bi h)
    unfold buildLoop
    simp only [hgr, hadd]
    exact ih dt2 (fun j hj => hlt j (by simp [hj]))
      (by rw [hc2, hcols])
      (fun bi h => hbase bi (hb2.symm.trans h))

theorem build_eval_none {T : Type} (M : NumModel T) (b : DataTableBuilder T)
    (len : Nat) (hgl : b.get_len = Except.ok len) :
    b.build M none = buildLoop M b (List.range len)
      (DataTable.new T b.data.length (some (b.data.map (fun p => p.1))) none) := by
  unfold DataTableBuilder.build
  rw [hgl]

theorem build_eval_some {T : Type} (M : NumModel T) (b : DataTableBuilder T)
    (len : Nat) (n : String) (hgl : b.get_len = Except.ok len) :
    b.build M (some n)
      = (match DataTable.new_with_base_data_name T b.data.length
            (b.data.map (fun p => p.1)) n with
        | Except.error e => some (Except.error e)
        | Except.ok dt => buildLoop M b (List.range len) dt) := by
  unfold DataTableBuilder.build
  rw [hgl]

/-- Counterexample to C4 as stated: a one-column builder whose single
buffer has a well-defined (equal) length still fails `build` when the
requested base name is unknown — so equal buffer lengths and a non-zero
column count do not suffice for `build` to succeed. -/
theorem builder_build_basename_cex :
    (∀ p ∈ exBuilderC4.data, ∀ q ∈ exBuilderC4.data,
      p.2.length = q.2.length) ∧
    exBuilderC4.data ≠ [] ∧
    DataTableBuilder.build intModel exBuilderC4 (some "b")
      = some (Except.error DataTableError.InvalidCBaseDataName) := by
  refine ⟨by decide, by decide, rfl⟩

/-- C4 (amended): `build` fails with `InconsistentBuilderData` whenever
two buffer lengths differ or there are no columns at all; when every
buffer has equal length and the column count is non-zero, it succeeds iff
the optional base name is absent or names one of the columns (an unknown
base name fails with `InvalidCBaseDataName`). -/
theorem builder_build_spec {T : Type} (M : NumModel T)
    (b : DataTableBuilder T) (bn : Option String) :
    ((b.data = [] ∨ ∃ p ∈ b.data, ∃ q ∈ b.data, p.2.length ≠ q.2.length) →
      b.build M bn
        = some (Except.error DataTableError.InconsistentBuilderData)) ∧
    ((∀ p ∈ b.data, ∀ q ∈ b.data, p.2.length = q.2.length) → b.data ≠ [] →
      ((∃ dt, b.build M bn = some (Except.ok dt)) ↔
        (bn = none ∨ ∃ n, bn = some n ∧ n ∈ b.data.map (fun p => p.1)))) := by
  constructor
  · rintro (hempty | ⟨p, hp, q, hq, hne⟩)
    · unfold DataTableBuilder.build
      rw [get_len_empty b hempty]
    · unfold DataTableBuilder.build
      rw [get_len_differs b p q hp hq hne]
  · intro hall hne
    obtain ⟨r, rs, hd⟩ : ∃ r rs, b.data = r :: rs := by
      cases hdd : b.data with
      | nil => exact absurd hdd hne
      | cons r rs => exact ⟨r, rs, rfl⟩
    have hlenall : ∀ p ∈ b.data, p.2.length = r.2.length :=
      fun p hp => hall p hp r (by rw [hd]; simp)
    have hgl : b.get_len = Except.ok r.2.length :=
      get_len_all_eq b _ hne hlenall
    constructor
    · rintro ⟨dt, hdt⟩
      cases hbn : bn with
      | none => exact Or.inl rfl
      | some n =>
        rw [hbn] at hdt
        by_cases hmem : n ∈ b.data.map (fun p => p.1)
        · exact Or.inr ⟨n, rfl, hmem⟩
        · exfalso
          have hpos : listPosition n (b.data.map (fun p => p.1)) = none := by
            cases hp2 : listPosition n (b.data.map (fun p => p.1)) with
            | none => rfl
            | some j =>
              exact absurd ((listPosition_mem n _).mpr ⟨j, hp2⟩) hmem
          have hnwb : DataTable.new_with_base_data_name T b.data.length
              (b.data.map (fun p => p.1)) n
              = Except.error DataTableError.InvalidCBaseDataName := by
            unfold DataTable.new_with_base_data_name
            rw [hpos]
          rw [build_eval_some M b r.2.length n hgl, hnwb] at hdt
          cases hdt
    · rintro (hbn | ⟨n, hbn, hmem⟩)
      · rw [hbn, build_eval_none M b r.2.length hgl]
        exact buildLoop_ok M b r.2.length hlenall (List.range r.2.length) _
          (fun i hi => List.mem_range.mp hi) rfl
          (fun bi h => by cases h)
      · rw [hbn, build_eval_some M b r.2.length n hgl]
        obtain ⟨idx, hidx⟩ :=
          (listPosition_mem n (b.data.map (fun p => p.1))).mp hmem
        have hidxlt : idx < b.data.length := by
          have := listPosition_lt_length n _ idx hidx
          rw [List.length_map] at this
          exact this
        have hnwb : DataTable.new_with_base_data_name T b.data.length
            (b.data.map (fun p => p.1)) n
            = Except.ok (DataTable.new T b.data.length
                (some (b.data.map (fun p => p.1))) (some idx)) := by
          unfold DataTable.new_with_base_data_name
          simp only [hidx]
          unfold DataTable.new_with_base_data_index
          rw [if_pos hidxlt]
        rw [hnwb]
        exact buildLoop_ok M b r.2.length hlenall (List.range r.2.length) _
          (fun i hi => List.mem_range.mp hi) rfl
          (fun bi h => by cases Option.some.inj h; exact hidxlt)

/-- Witness for C4 (amended): a one-column builder with one value builds
successfully with no base name. -/
theorem builder_build_spec_witness :
    ∃ dt, DataTableBuilder.build intModel
      (⟨[("a", [some 5])]⟩ : DataTableBuilder (Option Int)) none
      = some (Except.ok dt) :=
  ((builder_build_spec intModel ⟨[("a", [some 5])]⟩ none).2
    (by decide) (by decide)).mpr (Or.inl rfl)

/-- Witness for C1: at a concrete stream, the matching line is excluded,
the non-matching one kept, and the read error forwarded. -/
theorem filterIter_keeps_iff_witness :
    filterIterOutput [] [rxFive]
        [Except.ok "v 5", Except.ok "x", Except.error ⟨1⟩]
      = [Except.ok "x", Except.error ⟨1⟩] := by
  rw [filterIter_keeps_iff]
  rfl

/-- Witness for C8: dropping a concrete mid-stream read error leaves
`filter`'s result unchanged. -/
theorem read_errors_skipped_witness :
    filter [] [] [Except.ok "a", Except.error ⟨7⟩, Except.ok "b"]
      = filter [] [] [Except.ok "a", Except.ok "b"] :=
  (read_errors_skipped intModel [] [] [] none false
    [Except.ok "a"] [Except.ok "b"] ⟨7⟩).1

/-- Witness for C9 at a concrete stream and regex sets. -/
theorem filter_idempotent_witness :
    filter [] [rxFive]
        ((filterLines [] [rxFive] [Except.ok "v 5", Except.ok "x"]).map
          Except.ok)
      = Except.ok (filterLines [] [rxFive] [Except.ok "v 5", Except.ok "x"]) :=
  filter_idempotent [] [rxFive] [Except.ok "v 5", Except.ok "x"]

/-- Witness for C10 at a concrete non-empty stream. -/
theorem extract_data_empty_regexes_witness :
    extract_data intModel [Except.ok "v 5"] [] [] [] none false
      = some (Except.error (ExtractionError.DataTable
          DataTableError.InconsistentBuilderData)) :=
  extract_data_empty_regexes intModel [Except.ok "v 5"] [] [] none false
